import Mathlib

/-!
Shallow embedding of the per-device ingestion engine of `finitude.py`
(class `HvacMonitor`), together with theorems checking the stated
properties of its components against the code.

The embedding covers:
* `_storeframe` (the dedup store) over explicit association lists,
* the pure name/divisor derivation inside `_set_gauge` (Python
  `str.partition` is embedded over `List Char`),
* `_report_crc_error` and the `synchronized` flag,
* the `run` supervision loop, with transport outcomes supplied by an
  explicit script and exceptions modelled by `Except`.
-/

namespace Finitude

/-- Embedding of Python `dict.get`: association-list lookup. -/
def dictGet {β : Type} : List (String × β) → String → Option β
  | [], _ => none
  | (k, v) :: t, key => if k = key then some v else dictGet t key

/-- Embedding of Python `d[key] = v`: replace the binding if present, else add it. -/
def dictSet {β : Type} : List (String × β) → String → β → List (String × β)
  | [], key, v => [(key, v)]
  | (k, w) :: t, key, v => if k = key then (key, v) :: t else (k, w) :: dictSet t key v

/-- Per-device dedup state of `HvacMonitor.__init__` (lines 55-57):
`register_to_rest`, `frame_to_index` and the squashed `frames` list.
Timestamps are abstract ticks supplied by the caller. -/
structure Monitor where
  register_to_rest : List (String × String)
  frame_to_index : List (String × Nat)
  frames : List (Nat × String × Nat)
deriving DecidableEq

/-- Fresh monitor state: all three containers empty. -/
def initMonitor : Monitor := { register_to_rest := [], frame_to_index := [], frames := [] }

/-- Lines 89-92 of `_storeframe`: look the payload up in `frame_to_index`;
if absent, assign the next index `len + 1` and insert it. Returns the
index together with the updated map. -/
def lookupOrAssign (f2i : List (String × Nat)) (data : String) : Nat × List (String × Nat) :=
  match dictGet f2i data with
  | some i => (i, f2i)
  | none => (f2i.length + 1, (data, f2i.length + 1) :: f2i)

/-- Embedding of `HvacMonitor._storeframe(frame, name, rest)`.
`data` is `frame.data` (the raw payload), `now` the current tick.
The guard mirrors `lastrest = self.register_to_rest.get(name) if rest else None`
followed by `if lastrest == (rest or None): return`, with Python falsiness
of the empty string made explicit. -/
def storeframe (m : Monitor) (now : Nat) (data name rest : String) : Monitor :=
  let lastrest : Option String := if rest ≠ "" then dictGet m.register_to_rest name else none
  if lastrest = (if rest = "" then none else some rest) then m
  else
    let la := lookupOrAssign m.frame_to_index data
    { register_to_rest := dictSet m.register_to_rest name rest
      frame_to_index := la.2
      frames := m.frames ++ [(now, name, la.1)] }

/-- Feed the same frame (payload, register name, remainder) once per tick in `ts`. -/
def recordMany (m : Monitor) (ts : List Nat) (data name rest : String) : Monitor :=
  ts.foldl (fun acc t => storeframe acc t data name rest) m

/-- The content index that `_storeframe` uses for a payload in state `m`. -/
def assignedIndex (m : Monitor) (data : String) : Nat :=
  (lookupOrAssign m.frame_to_index data).1

/-- One `_storeframe` call described by its arguments. -/
structure RecordOp where
  now : Nat
  data : String
  name : String
  rest : String
deriving DecidableEq

/-- Run a list of `_storeframe` calls from the fresh monitor state. -/
def applyOps (ops : List RecordOp) : Monitor :=
  ops.foldl (fun m o => storeframe m o.now o.data o.name o.rest) initMonitor

/-- The descending list `[n, n-1, ..., 1]`: the indices of `frame_to_index`
read from the most recently inserted binding to the oldest. -/
def descRange : Nat → List Nat
  | 0 => []
  | n + 1 => (n + 1) :: descRange n

/-- Structural invariant of the content-index map: its indices are exactly
`n, ..., 1` in insertion-reversed order and its payload keys are distinct. -/
def goodF2I (l : List (String × Nat)) : Prop :=
  l.map Prod.snd = descRange l.length ∧ (l.map Prod.fst).Nodup

/-- Invariant of the dedup store maintained by `_storeframe`. -/
def MonitorInv (m : Monitor) : Prop :=
  goodF2I m.frame_to_index ∧ m.frame_to_index.length ≤ m.frames.length

/-- Per-device synchronization state: the `synchronized` flag and the
value of the `finitude_desyncs` counter. -/
structure SyncState where
  synchronized : Bool
  desyncs : Nat
deriving DecidableEq

/-- Line 70 of `process_frame`: `self.synchronized = True`. -/
def mark_synchronized (s : SyncState) : SyncState := { s with synchronized := true }

/-- Embedding of `HvacMonitor._report_crc_error` (lines 125-128). -/
def report_crc_error (s : SyncState) : SyncState :=
  if s.synchronized then { synchronized := false, desyncs := s.desyncs + 1 } else s

/-- Events driving the synchronization state. -/
inductive SyncEv
  | mark
  | crc
deriving DecidableEq

/-- Apply one synchronization event. -/
def syncStep (s : SyncState) : SyncEv → SyncState
  | SyncEv.mark => mark_synchronized s
  | SyncEv.crc => report_crc_error s

/-- Strip `p` from the front of `s`, returning the remainder when `p` is an
initial segment of `s`. -/
def stripSub : List Char → List Char → Option (List Char)
  | [], s => some s
  | _ :: _, [] => none
  | c :: p, d :: s => if c = d then stripSub p s else none

/-- Find the first occurrence of `p` inside `s`, returning the part before
it and the part after it. -/
def findSub (p : List Char) : List Char → Option (List Char × List Char)
  | [] =>
    match stripSub p [] with
    | some r => some ([], r)
    | none => none
  | c :: t =>
    match stripSub p (c :: t) with
    | some r => some ([], r)
    | none =>
      match findSub p t with
      | some (b, a) => some (c :: b, a)
      | none => none

/-- Embedding of Python `s.partition(sep)`: split at the first occurrence
of `sep`, returning `(before, sep, after)`, or `(s, "", "")` when `sep`
does not occur. -/
def partition (s sep : String) : String × String × String :=
  match findSub sep.data s.data with
  | some (b, a) => (String.mk b, sep, String.mk a)
  | none => (s, "", "")

/-- Embedding of Python `s.lower()` for the ASCII names used here. -/
def strLower (s : String) : String := String.mk (s.data.map Char.toLower)

/-- Line 112 of `_set_gauge`: the f-string
joining prefix, lower-cased unit token and suffix with underscores
around the token when the neighbouring part is non-empty. -/
def joinUnit (pre word post : String) : String :=
  pre ++ (if pre ≠ "" then "_" else "") ++ strLower word ++ (if post ≠ "" then "_" else "") ++ post

/-- Lines 109-113 of `_set_gauge`: the loop over `['RPM', 'CFM']` with
`break` on the first token that occurs in the item name. -/
def deriveUnit (itemname : String) : String :=
  let pr := partition itemname "RPM"
  if pr.2.1 ≠ "" then joinUnit pr.1 pr.2.1 pr.2.2
  else
    let pc := partition itemname "CFM"
    if pc.2.1 ≠ "" then joinUnit pc.1 pc.2.1 pc.2.2
    else itemname

/-- Lines 100-108 of `_set_gauge`: the `Times7` check followed by the
`Times16` check, each firing when the partition middle is non-empty and
the part after it is empty. Returns the resulting item name and divisor. -/
def applyTimesRules (itemname : String) : String × Nat :=
  let p7 := partition itemname "Times7"
  let s1 := if p7.2.1 ≠ "" ∧ p7.2.2 = "" then p7.1 else itemname
  let d1 := if p7.2.1 ≠ "" ∧ p7.2.2 = "" then 7 else 1
  let p16 := partition s1 "Times16"
  let s2 := if p16.2.1 ≠ "" ∧ p16.2.2 = "" then p16.1 else s1
  let d2 := if p16.2.1 ≠ "" ∧ p16.2.2 = "" then 16 else d1
  (s2, d2)

/-- Lines 114-117 of `_set_gauge`: the gauge name. Only the item part is
lower-cased in the non-empty-table branch. -/
def gaugeKey (tablename itemname : String) : String :=
  if tablename ≠ "" then "finitude_" ++ tablename ++ "_" ++ strLower itemname
  else "finitude_" ++ itemname

/-- Line 123 of `_set_gauge`: the stored value `v / divisor`, over `ℚ`. -/
def gaugeValue (v : ℚ) (divisor : Nat) : ℚ := v / (divisor : ℚ)

/-- The pure part of `_set_gauge` end to end: derived gauge name and value. -/
def set_gauge (tablename itemname : String) (v : ℚ) : String × ℚ :=
  let tr := applyTimesRules itemname
  (gaugeKey tablename (deriveUnit tr.1), gaugeValue v tr.2)

/-- State of the `run` loop: whether a connection is open, and the values
of the `finitude_reconnects` and `finitude_frames` counters, plus the
number of one-unit backoff sleeps performed. -/
structure RunState where
  streamOpen : Bool
  reconnects : Nat
  frameCount : Nat
  slept : Nat
deriving DecidableEq

/-- Outcome of the blocking read of one loop iteration: a good frame, a
frame whose processing raises a non-transport error, or an `OSError`. -/
inductive ReadOutcome
  | frameOk
  | procFail
  | transportFail
deriving DecidableEq

/-- Environment behaviour for one iteration of the `while True` loop:
whether an attempted `open()` would succeed, and how the read turns out. -/
structure IterEnv where
  openSucceeds : Bool
  read : ReadOutcome
deriving DecidableEq

/-- Errors that can escape `run`. -/
inductive RunError
  | startupFail
  | procError
deriving DecidableEq

/-- One iteration of the loop body of `run` (lines 132-142): reopen if the
stream was discarded, read, count the frame, process it; `OSError` from
open or read is caught, logged, slept on for one unit and the connection
discarded; any other processing error escapes. -/
def iterate (s : RunState) (e : IterEnv) : Except RunError RunState :=
  if !s.streamOpen && !e.openSucceeds then
    Except.ok { s with streamOpen := false, slept := s.slept + 1 }
  else
    let s1 := if s.streamOpen then s
              else { s with streamOpen := true, reconnects := s.reconnects + 1 }
    match e.read with
    | ReadOutcome.transportFail => Except.ok { s1 with streamOpen := false, slept := s1.slept + 1 }
    | ReadOutcome.frameOk => Except.ok { s1 with frameCount := s1.frameCount + 1 }
    | ReadOutcome.procFail => Except.error RunError.procError

/-- The `while True` loop of `run`, executed for one scripted environment
outcome per iteration. -/
def runLoop : RunState → List IterEnv → Except RunError RunState
  | s, [] => Except.ok s
  | s, e :: rest =>
    match iterate s e with
    | Except.ok s' => runLoop s' rest
    | Except.error err => Except.error err

/-- Embedding of `HvacMonitor.run` (lines 130-142): the initial `open()`
is outside the `try` block, so its failure escapes; on success it has
already incremented the reconnect counter once. -/
def run (firstOpenSucceeds : Bool) (script : List IterEnv) : Except RunError RunState :=
  if firstOpenSucceeds then
    runLoop { streamOpen := true, reconnects := 1, frameCount := 0, slept := 0 } script
  else Except.error RunError.startupFail

/-- The reconnect scenario script: three transport errors in a row after
the successful startup open, each later reopen succeeding, then one good
frame. -/
def reconnectScript : List IterEnv :=
  [⟨true, ReadOutcome.transportFail⟩, ⟨true, ReadOutcome.transportFail⟩,
   ⟨true, ReadOutcome.transportFail⟩, ⟨true, ReadOutcome.frameOk⟩]

/-! Helper lemmas about the dedup store. -/

theorem dictGet_dictSet_self {β : Type} (l : List (String × β)) (k : String) (v : β) :
    dictGet (dictSet l k v) k = some v := by
  induction l with
  | nil => simp [dictGet, dictSet]
  | cons hd t ih =>
    obtain ⟨k', w⟩ := hd
    by_cases hk : k' = k <;> simp [dictGet, dictSet, hk, ih]

theorem dictGet_none_notMem {β : Type} (l : List (String × β)) (k : String)
    (h : dictGet l k = none) : k ∉ l.map Prod.fst := by
  induction l with
  | nil => simp
  | cons hd t ih =>
    obtain ⟨k', w⟩ := hd
    by_cases hk : k' = k
    · simp [dictGet, hk] at h
    · simp only [dictGet, hk, if_false] at h
      simp only [List.map_cons, List.mem_cons]
      rintro (h1 | h2)
      · exact hk h1.symm
      · exact ih h h2

theorem storeframe_noop (m : Monitor) (t : Nat) (data name rest : String)
    (h : rest = "" ∨ dictGet m.register_to_rest name = some rest) :
    storeframe m t data name rest = m := by
  rcases h with h | h
  · simp [storeframe, h]
  · by_cases hr : rest = ""
    · simp [storeframe, hr]
    · simp [storeframe, hr, h]

theorem storeframe_store (m : Monitor) (t : Nat) (data name rest : String)
    (h1 : rest ≠ "") (h2 : dictGet m.register_to_rest name ≠ some rest) :
    storeframe m t data name rest =
      { register_to_rest := dictSet m.register_to_rest name rest
        frame_to_index := (lookupOrAssign m.frame_to_index data).2
        frames := m.frames ++ [(t, name, (lookupOrAssign m.frame_to_index data).1)] } := by
  simp [storeframe, h1, h2]

theorem storeframe_storeframe (m : Monitor) (t t' : Nat) (data name rest : String) :
    storeframe (storeframe m t data name rest) t' data name rest =
      storeframe m t data name rest := by
  by_cases h : rest = "" ∨ dictGet m.register_to_rest name = some rest
  · rw [storeframe_noop m t data name rest h, storeframe_noop m t' data name rest h]
  · push_neg at h
    rw [storeframe_store m t data name rest h.1 h.2]
    apply storeframe_noop
    right
    exact dictGet_dictSet_self m.register_to_rest name rest

theorem storeframe_frames_le (m : Monitor) (t : Nat) (data name rest : String) :
    (storeframe m t data name rest).frames.length ≤ m.frames.length + 1 := by
  by_cases h : rest = "" ∨ dictGet m.register_to_rest name = some rest
  · rw [storeframe_noop m t data name rest h]; omega
  · push_neg at h
    rw [storeframe_store m t data name rest h.1 h.2]
    simp

theorem foldl_fixed {α β : Type} (f : β → α → β) (m : β)
    (hf : ∀ a, f m a = m) : ∀ l : List α, l.foldl f m = m := by
  intro l
  induction l with
  | nil => rfl
  | cons a l ih => rw [List.foldl_cons, hf a, ih]

/-- C1 (amended): the record operation of the dedup store does nothing
exactly when the new remainder is empty, or when it is non-empty and
equals the last stored remainder for that register name; in every other
case it sets the stored last remainder, resolves the content index for
the payload and appends one entry to the sequence. A transition from a
non-empty last remainder to an empty remainder is NOT recorded, and an
empty remainder is never stored. -/
theorem storeframe_characterization (m : Monitor) (t : Nat) (data name rest : String) :
    storeframe m t data name rest =
      if rest = "" ∨ dictGet m.register_to_rest name = some rest then m
      else
        { register_to_rest := dictSet m.register_to_rest name rest
          frame_to_index := (lookupOrAssign m.frame_to_index data).2
          frames := m.frames ++ [(t, name, (lookupOrAssign m.frame_to_index data).1)] } := by
  by_cases h : rest = "" ∨ dictGet m.register_to_rest name = some rest
  · rw [if_pos h]; exact storeframe_noop m t data name rest h
  · rw [if_neg h]
    push_neg at h
    exact storeframe_store m t data name rest h.1 h.2

/-- C1 counterexample: with last stored remainder `"a"` for register
`"X"`, a frame with empty remainder is NOT recorded — the store is left
unchanged, no entry is appended — contradicting the claim that the
non-empty-to-empty transition is recorded. -/
theorem storeframe_empty_after_nonempty_noop :
    dictGet (storeframe initMonitor 0 "P1" "X" "a").register_to_rest "X" = some "a"
    ∧ (storeframe initMonitor 0 "P1" "X" "a").frames.length = 1
    ∧ storeframe (storeframe initMonitor 0 "P1" "X" "a") 1 "P2" "X" "" =
        storeframe initMonitor 0 "P1" "X" "a" := by
  decide

/-- C4: feeding any number of identical consecutive frames (same payload,
register name and remainder) to the dedup store grows the chronological
sequence log by at most one entry. -/
theorem sequence_grows_at_most_one (m : Monitor) (ts : List Nat) (data name rest : String) :
    (recordMany m ts data name rest).frames.length ≤ m.frames.length + 1 := by
  cases ts with
  | nil => simp [recordMany]
  | cons t ts' =>
    unfold recordMany
    rw [List.foldl_cons,
      foldl_fixed _ _ (fun t' => storeframe_storeframe m t t' data name rest) ts']
    exact storeframe_frames_le m t data name rest

/-- C5: across any record call, every existing payload-to-index binding is
preserved (the mapping never shrinks and indices are stable across
repeats), the index the store would use for the recorded payload is
unchanged by the call, and the mapping length either stays the same or
grows by exactly one, the latter only when the recorded payload was never
seen before, in which case it is bound to index `length + 1`. -/
theorem content_index_stability (m : Monitor) (t : Nat) (data name rest q : String) (i : Nat) :
    (dictGet m.frame_to_index q = some i →
      dictGet (storeframe m t data name rest).frame_to_index q = some i)
    ∧ assignedIndex (storeframe m t data name rest) data = assignedIndex m data
    ∧ ((storeframe m t data name rest).frame_to_index.length = m.frame_to_index.length
       ∨ ((storeframe m t data name rest).frame_to_index.length = m.frame_to_index.length + 1
          ∧ dictGet m.frame_to_index data = none
          ∧ dictGet (storeframe m t data name rest).frame_to_index data
              = some (m.frame_to_index.length + 1))) := by
  by_cases h : rest = "" ∨ dictGet m.register_to_rest name = some rest
  · rw [storeframe_noop m t data name rest h]
    exact ⟨fun hq => hq, rfl, Or.inl rfl⟩
  · push_neg at h
    rw [storeframe_store m t data name rest h.1 h.2]
    cases hd : dictGet m.frame_to_index data with
    | some j =>
      refine ⟨fun hq => ?_, ?_, Or.inl ?_⟩ <;>
        simp [lookupOrAssign, assignedIndex, hd]
      exact hq
    | none =>
      refine ⟨fun hq => ?_, ?_, Or.inr ⟨?_, rfl, ?_⟩⟩
      · have hne : data ≠ q := fun he => by rw [he] at hd; rw [hd] at hq; cases hq
        simp [lookupOrAssign, hd, dictGet, hne]
        exact hq
      · simp [assignedIndex, lookupOrAssign, hd, dictGet]
      · simp [lookupOrAssign, hd]
      · simp [lookupOrAssign, hd, dictGet]

/-- C5 witness: concrete run where a previously assigned binding is
preserved by a later record call. -/
theorem content_index_stability_witness :
    dictGet (storeframe initMonitor 0 "P1" "X" "a").frame_to_index "P1" = some 1
    ∧ dictGet (storeframe (storeframe initMonitor 0 "P1" "X" "a") 1 "P2" "X" "b").frame_to_index
        "P1" = some 1 :=
  ⟨by decide,
   (content_index_stability (storeframe initMonitor 0 "P1" "X" "a") 1 "P2" "X" "b" "P1" 1).1
     (by decide)⟩

/-! Invariant of the content-index map. -/

theorem mem_descRange (i : Nat) : ∀ n, i ∈ descRange n ↔ 1 ≤ i ∧ i ≤ n := by
  intro n
  induction n with
  | zero => simp [descRange]; omega
  | succ k ih =>
    simp only [descRange, List.mem_cons, ih]
    omega

theorem descRange_nodup : ∀ n, (descRange n).Nodup := by
  intro n
  induction n with
  | zero => simp [descRange]
  | succ k ih =>
    simp only [descRange, List.nodup_cons, ih, and_true, mem_descRange]
    omega

theorem descRange_getLast : ∀ n, (descRange n).getLast? = if n = 0 then none else some 1 := by
  intro n
  induction n with
  | zero => rfl
  | succ k ih =>
    cases k with
    | zero => rfl
    | succ j =>
      show ((j + 2) :: (j + 1) :: descRange j).getLast? = some 1
      rw [List.getLast?_cons_cons]
      simpa using ih

theorem monitorInv_init : MonitorInv initMonitor :=
  ⟨⟨rfl, List.nodup_nil⟩, Nat.le_refl 0⟩

theorem monitorInv_step (m : Monitor) (t : Nat) (data name rest : String)
    (h : MonitorInv m) : MonitorInv (storeframe m t data name rest) := by
  by_cases hc : rest = "" ∨ dictGet m.register_to_rest name = some rest
  · rw [storeframe_noop m t data name rest hc]; exact h
  · push_neg at hc
    rw [storeframe_store m t data name rest hc.1 hc.2]
    obtain ⟨⟨hsnd, hfst⟩, hlen⟩ := h
    cases hd : dictGet m.frame_to_index data with
    | some j =>
      refine ⟨⟨?_, ?_⟩, ?_⟩ <;> simp [lookupOrAssign, hd, hsnd, hfst]
      omega
    | none =>
      refine ⟨⟨?_, ?_⟩, ?_⟩
      · simp only [lookupOrAssign, hd, List.map_cons, List.length_cons]
        rw [hsnd]
        rfl
      · simp only [lookupOrAssign, hd, List.map_cons, List.nodup_cons]
        exact ⟨dictGet_none_notMem m.frame_to_index data hd, hfst⟩
      · simp only [lookupOrAssign, hd, List.length_cons, List.length_append]
        omega

theorem monitorInv_applyOps (ops : List RecordOp) : MonitorInv (applyOps ops) := by
  unfold applyOps
  have step : ∀ (l : List RecordOp) (m : Monitor), MonitorInv m →
      MonitorInv (l.foldl (fun m o => storeframe m o.now o.data o.name o.rest) m) := by
    intro l
    induction l with
    | nil => intro m hm; exact hm
    | cons o l ih =>
      intro m hm
      exact ih _ (monitorInv_step m o.now o.data o.name o.rest hm)
  exact step ops initMonitor monitorInv_init

/-- C10: after any sequence of record calls starting from a fresh monitor,
the content-index map is injective (no two payloads share an index and no
payload occurs twice), its indices are exactly the contiguous range from
1 to the number of distinct stored payloads, the earliest inserted
binding carries index 1, and the frame sequence is at least as long as
the map. -/
theorem frame_index_invariant (ops : List RecordOp) :
    ((applyOps ops).frame_to_index.map Prod.snd).Nodup
    ∧ (∀ i, i ∈ (applyOps ops).frame_to_index.map Prod.snd ↔
        1 ≤ i ∧ i ≤ (applyOps ops).frame_to_index.length)
    ∧ ((applyOps ops).frame_to_index.map Prod.fst).Nodup
    ∧ ((applyOps ops).frame_to_index.map Prod.snd).getLast? =
        (if (applyOps ops).frame_to_index.length = 0 then none else some 1)
    ∧ (applyOps ops).frame_to_index.length ≤ (applyOps ops).frames.length := by
  obtain ⟨⟨hsnd, hfst⟩, hlen⟩ := monitorInv_applyOps ops
  refine ⟨?_, ?_, hfst, ?_, hlen⟩
  · rw [hsnd]; exact descRange_nodup _
  · intro i; rw [hsnd]; exact mem_descRange i _
  · rw [hsnd]; exact descRange_getLast _

/-! Synchronization tracking. -/

/-- C6: the desync counter increments exactly on a synchronized event
followed by a CRC error — one increment per step that is a
synchronized-to-unsynchronized transition, never while already
unsynchronized — and a CRC error always leaves the state unsynchronized,
so two CRC errors in a row with no intervening mark increment the
counter exactly once (and not at all when already unsynchronized). -/
theorem desync_counter_transitions (s : SyncState) (e : SyncEv) :
    (syncStep s e).desyncs = s.desyncs + (if s.synchronized = true ∧ e = SyncEv.crc then 1 else 0)
    ∧ (report_crc_error s).synchronized = false
    ∧ (report_crc_error (report_crc_error s)).desyncs =
        s.desyncs + (if s.synchronized = true then 1 else 0) := by
  obtain ⟨sync, d⟩ := s
  cases sync <;> cases e <;>
    simp [syncStep, mark_synchronized, report_crc_error]

/-! The supervision loop. -/

/-- C8: with a successful startup open followed by three reads that raise
a transport error, each later reopen succeeding, the reconnect counter
ends at exactly 4 — the initial open plus the three retry opens — the
loop completes the script normally (no error escapes), one frame is
counted and three one-unit backoffs were slept. -/
theorem reconnect_scenario :
    run true reconnectScript =
      Except.ok { streamOpen := true, reconnects := 4, frameCount := 1, slept := 3 } := by
  rfl

/-- C9: a transport error during read or reopen is caught: the loop
continues with the connection discarded, one backoff slept, and the
reconnect counter incremented only when this iteration performed a
successful reopen; a failure of the very first open at startup escapes
`run` uncaught; and a non-transport processing error propagates out of
the loop immediately. -/
theorem run_error_handling (s : RunState) (op : Bool) (script : List IterEnv) :
    runLoop s (⟨op, ReadOutcome.transportFail⟩ :: script) =
      runLoop { streamOpen := false
                reconnects := s.reconnects + (if !s.streamOpen && op then 1 else 0)
                frameCount := s.frameCount
                slept := s.slept + 1 } script
    ∧ run false script = Except.error RunError.startupFail
    ∧ runLoop s (⟨true, ReadOutcome.procFail⟩ :: script) = Except.error RunError.procError := by
  obtain ⟨so, rec, fc, sl⟩ := s
  refine ⟨?_, rfl, ?_⟩ <;> cases so <;> cases op <;> simp [runLoop, iterate]

/-! Name derivation. -/

theorem stripSub_eq (p : List Char) : ∀ (s r : List Char), stripSub p s = some r → s = p ++ r := by
  induction p with
  | nil =>
    intro s r h
    simp only [stripSub, Option.some.injEq] at h
    simp [h]
  | cons c p ih =>
    intro s r h
    cases s with
    | nil => exact absurd h (by simp [stripSub])
    | cons d s =>
      by_cases hcd : c = d
      · subst hcd
        simp only [stripSub, if_pos rfl] at h
        simpa using ih s r h
      · simp [stripSub, hcd] at h

theorem findSub_decomp (p : List Char) : ∀ (s b a : List Char),
    findSub p s = some (b, a) → s = b ++ p ++ a := by
  intro s
  induction s with
  | nil =>
    intro b a h
    simp only [findSub] at h
    cases hp : stripSub p [] with
    | none => rw [hp] at h; cases h
    | some r =>
      rw [hp] at h
      have hd := stripSub_eq p [] r hp
      simp only [Option.some.injEq, Prod.mk.injEq] at h
      obtain ⟨hb, ha⟩ := h
      subst hb; subst ha
      simpa using hd
  | cons c t ih =>
    intro b a h
    simp only [findSub] at h
    cases hp : stripSub p (c :: t) with
    | some r =>
      rw [hp] at h
      have hd := stripSub_eq p (c :: t) r hp
      simp only [Option.some.injEq, Prod.mk.injEq] at h
      obtain ⟨hb, ha⟩ := h
      subst hb; subst ha
      simpa using hd
    | none =>
      rw [hp] at h
      cases hf : findSub p t with
      | none => rw [hf] at h; cases h
      | some ba =>
        obtain ⟨b', a'⟩ := ba
        rw [hf] at h
        simp only [Option.some.injEq, Prod.mk.injEq] at h
        obtain ⟨hb, ha⟩ := h
        subst hb; subst ha
        simp [ih b' a' hf]

theorem partition_pos (s sep : String) (b a : List Char)
    (h : findSub sep.data s.data = some (b, a)) :
    partition s sep = (String.mk b, sep, String.mk a) := by
  simp [partition, h]

theorem partition_neg (s sep : String) (h : findSub sep.data s.data = none) :
    partition s sep = (s, "", "") := by
  simp [partition, h]

theorem mk_eq_empty_iff (b : List Char) : String.mk b = "" ↔ b = [] := by
  simp [String.ext_iff]

/-- C2 (amended): when the item name contains `RPM` as a substring (or,
failing that, `CFM` — `RPM` is checked first), the name splits at the
FIRST occurrence of the token and is rewritten by lower-casing that token
and inserting underscores between it and any non-empty before/after part;
the before and after parts keep their original case. In particular
`deriveUnit "FanRPM" = "Fan_rpm"`, `deriveUnit "RPMLimit" = "rpm_Limit"`,
and `deriveUnit "CFM" = "cfm"`. -/
theorem deriveUnit_rewrite (s1 s2 : String) (b1 a1 b2 a2 : List Char)
    (h1 : findSub "RPM".data s1.data = some (b1, a1))
    (h2 : findSub "RPM".data s2.data = none)
    (h3 : findSub "CFM".data s2.data = some (b2, a2)) :
    s1.data = b1 ++ "RPM".data ++ a1
    ∧ deriveUnit s1 = String.mk b1 ++ (if b1 = [] then "" else "_") ++ "rpm"
        ++ (if a1 = [] then "" else "_") ++ String.mk a1
    ∧ s2.data = b2 ++ "CFM".data ++ a2
    ∧ deriveUnit s2 = String.mk b2 ++ (if b2 = [] then "" else "_") ++ "cfm"
        ++ (if a2 = [] then "" else "_") ++ String.mk a2
    ∧ deriveUnit "FanRPM" = "Fan_rpm"
    ∧ deriveUnit "RPMLimit" = "rpm_Limit"
    ∧ deriveUnit "CFM" = "cfm" := by
  refine ⟨findSub_decomp _ _ _ _ h1, ?_, findSub_decomp _ _ _ _ h3, ?_,
    by decide, by decide, by decide⟩
  · have hpr := partition_pos s1 "RPM" b1 a1 h1
    have hlow : strLower "RPM" = "rpm" := by decide
    simp only [deriveUnit, hpr, joinUnit, hlow]
    by_cases hb : b1 = [] <;> by_cases ha : a1 = [] <;>
      simp [hb, ha, mk_eq_empty_iff]
  · have hpr := partition_pos s2 "CFM" b2 a2 h3
    have hpn := partition_neg s2 "RPM" h2
    have hlow : strLower "CFM" = "cfm" := by decide
    simp only [deriveUnit, hpn, hpr, joinUnit, hlow]
    by_cases hb : b2 = [] <;> by_cases ha : a2 = [] <;>
      simp [hb, ha, mk_eq_empty_iff]

/-- C2 counterexample: the rewrite lower-cases only the matched token, so
`deriveUnit "FanRPM"` is `"Fan_rpm"`, not the `"fan_rpm"` stated by the
claim. -/
theorem deriveUnit_case_cex :
    deriveUnit "FanRPM" = "Fan_rpm" ∧ deriveUnit "FanRPM" ≠ "fan_rpm" := by
  decide

/-- C2 witness: the theorem applied at `"FanRPM"` (RPM case) and `"ACFM"`
(CFM case with no RPM occurrence). -/
theorem deriveUnit_rewrite_witness :
    deriveUnit "FanRPM" = "Fan_rpm" ∧ deriveUnit "ACFM" = "A_cfm" := by
  have h := deriveUnit_rewrite "FanRPM" "ACFM" "Fan".data [] ['A'] []
    (by decide) (by decide) (by decide)
  exact ⟨h.2.2.2.2.1, by rw [h.2.2.2.1]; decide⟩

/-- C3 (amended): the `Times7` rule fires exactly when the FIRST
occurrence of `Times7` in the item name is at its end; it strips the
suffix and sets the divisor to 7. The `Times16` rule is then applied in
the same way to the resulting name (not as an else-branch), overriding
the divisor with 16 when it fires. The divisor is 1 when neither rule
fired. Deriving `"HeatDemandTimes7"` with value 35 yields name
`"HeatDemand"` and value 5, and `"AirflowTimes16"` with 160 yields
`"Airflow"` and 10. -/
theorem times_rules_spec (sa sb sc sd : String) (ba bb bd bd2 : List Char)
    (h1 : findSub "Times7".data sa.data = some (ba, []))
    (h1b : findSub "Times16".data ba = none)
    (h2 : findSub "Times7".data sb.data = none)
    (h2b : findSub "Times16".data sb.data = some (bb, []))
    (h3 : findSub "Times7".data sc.data = none)
    (h3b : findSub "Times16".data sc.data = none)
    (h4 : findSub "Times7".data sd.data = some (bd, []))
    (h4b : findSub "Times16".data bd = some (bd2, [])) :
    sa.data = ba ++ "Times7".data
    ∧ applyTimesRules sa = (String.mk ba, 7)
    ∧ sb.data = bb ++ "Times16".data
    ∧ applyTimesRules sb = (String.mk bb, 16)
    ∧ applyTimesRules sc = (sc, 1)
    ∧ applyTimesRules sd = (String.mk bd2, 16)
    ∧ applyTimesRules "HeatDemandTimes7" = ("HeatDemand", 7)
    ∧ gaugeValue 35 7 = 5
    ∧ applyTimesRules "AirflowTimes16" = ("Airflow", 16)
    ∧ gaugeValue 160 16 = 10 := by
  refine ⟨by simpa using findSub_decomp _ _ _ _ h1, ?_,
    by simpa using findSub_decomp _ _ _ _ h2b, ?_, ?_, ?_,
    by decide, ?_, by decide, ?_⟩
  · have hp7 := partition_pos sa "Times7" ba [] h1
    have hp16 : partition (String.mk ba) "Times16" = (String.mk ba, "", "") :=
      partition_neg (String.mk ba) "Times16" h1b
    simp [applyTimesRules, hp7, hp16]
  · have hp7 := partition_neg sb "Times7" h2
    have hp16 := partition_pos sb "Times16" bb [] h2b
    simp [applyTimesRules, hp7, hp16]
  · have hp7 := partition_neg sc "Times7" h3
    have hp16 := partition_neg sc "Times16" h3b
    simp [applyTimesRules, hp7, hp16]
  · have hp7 := partition_pos sd "Times7" bd [] h4
    have hp16 := partition_pos (String.mk bd) "Times16" bd2 [] h4b
    simp [applyTimesRules, hp7, hp16]
  · show (35 : ℚ) / ((7 : Nat) : ℚ) = 5
    norm_num
  · show (160 : ℚ) / ((16 : Nat) : ℚ) = 10
    norm_num

/-- C3 counterexample: `"Times7Times7"` ends with the literal suffix
`Times7`, yet the code leaves it unchanged with divisor 1 because the
FIRST occurrence of `Times7` is followed by more text, contradicting the
claim that the suffix is stripped and the value divided by 7. -/
theorem times_rules_first_occurrence_cex :
    applyTimesRules "Times7Times7" = ("Times7Times7", 1)
    ∧ applyTimesRules "Times7Times7" ≠ ("Times7", 7) := by
  decide

/-- C3 witness: the theorem applied at the four scenario names, covering
the strip-and-divide-by-7 case, the divide-by-16 case, the default case
and the override case. -/
theorem times_rules_spec_witness :
    applyTimesRules "HeatDemandTimes7" = ("HeatDemand", 7)
    ∧ applyTimesRules "AirflowTimes16" = ("Airflow", 16)
    ∧ applyTimesRules "Other" = ("Other", 1)
    ∧ applyTimesRules "XTimes16Times7" = ("X", 16) := by
  have h := times_rules_spec "HeatDemandTimes7" "AirflowTimes16" "Other" "XTimes16Times7"
    "HeatDemand".data "Airflow".data "XTimes16".data "X".data
    (by decide) (by decide) (by decide) (by decide)
    (by decide) (by decide) (by decide) (by decide)
  exact ⟨h.2.2.2.2.2.2.1, h.2.2.2.2.2.2.2.2.1, h.2.2.2.2.1, by rw [h.2.2.2.2.2.1]⟩

/-- C7 (amended): with a non-empty table alias the gauge key is
`finitude_` followed by the table alias AS IS, an underscore, and the
lower-cased item name — only the item part is lower-cased, the alias
keeps its case (every alias in the built-in table map happens to be
lower-case already); with an empty alias the key is `finitude_` followed
by the item name with its case preserved. The two stated examples hold. -/
theorem gauge_key_branches (t i j : String) (h : t ≠ "") :
    gaugeKey t i = "finitude_" ++ t ++ "_" ++ strLower i
    ∧ gaugeKey "" j = "finitude_" ++ j
    ∧ gaugeKey "airhandler" "Speed" = "finitude_airhandler_speed"
    ∧ gaugeKey "" "OutdoorTemp" = "finitude_OutdoorTemp" := by
  refine ⟨by simp [gaugeKey, h], by simp [gaugeKey], by decide, by decide⟩

/-- C7 counterexample: for the pass-through table alias `"Foo"` the code
produces `finitude_Foo_speed`, not the fully lower-cased
`finitude_foo_speed` stated by the claim. -/
theorem gauge_key_table_case_cex :
    gaugeKey "Foo" "Speed" = "finitude_Foo_speed"
    ∧ gaugeKey "Foo" "Speed" ≠ "finitude_foo_speed" := by
  decide

/-- C7 witness: the theorem applied at the claim's own example inputs. -/
theorem gauge_key_branches_witness :
    ("airhandler" : String) ≠ ""
    ∧ gaugeKey "airhandler" "Speed" = "finitude_airhandler_speed"
    ∧ gaugeKey "" "OutdoorTemp" = "finitude_OutdoorTemp" :=
  ⟨by decide, (gauge_key_branches "airhandler" "Speed" "X" (by decide)).2.2.1,
   (gauge_key_branches "airhandler" "Speed" "OutdoorTemp" (by decide)).2.2.2⟩

end Finitude
